import Mathlib

/-!
Shallow embedding of `src/NemIOSClient/ed25519/generator.c` (NEM iOS client,
keccak-based ed25519 key generation and signing).

Byte buffers are `List Nat` whose elements are byte values.  The external
collaborators (`keccak`, `ge_scalarmult_base`, `ge_p3_tobytes`, `sc_reduce`,
`sc_muladd`) are not part of the repository source; the spec treats them as
vetted external collaborators, so the embedding is parameterised by them
(structure `Curve`) and every theorem holds for an arbitrary instantiation.
Reading a fixed-size C output buffer that a collaborator filled is modelled by
`memBytes`, which always yields exactly the buffer's width.
-/

/-- Reading `n` bytes of a C buffer starting at offset `off`: byte `i` of the
result is element `off + i` of the backing list (0 for an out-of-range read,
which never happens on the reachable inputs). -/
def memBytes (l : List Nat) (off n : Nat) : List Nat :=
  (List.range n).map (fun i => l.getD (off + i) 0)

/-- The external collaborators used by generator.c, kept abstract.
`keccak input outLen` models `keccak(in, inLen, out, outLen)`. -/
structure Curve (Point : Type) where
  keccak : List Nat → Nat → List Nat
  ge_scalarmult_base : List Nat → Point
  ge_p3_tobytes : Point → List Nat
  sc_reduce : List Nat → List Nat
  sc_muladd : List Nat → List Nat → List Nat → List Nat

/-- The `outLen`-byte buffer filled by a call `keccak(in, inLen, md, outLen)`:
the collaborator's output read back through the fixed-width C array. -/
def keccakBuf {P : Type} (c : Curve P) (input : List Nat) (outLen : Nat) : List Nat :=
  memBytes (c.keccak input outLen) 0 outLen

/-- The first 32 bytes of a 64-byte buffer after an in-place `sc_reduce`:
the scalar the callers of `sc_reduce` read back. -/
def scReduceBuf {P : Type} (c : Curve P) (buf : List Nat) : List Nat :=
  memBytes (c.sc_reduce buf) 0 32

/-- Lowercase hex digit for a nibble, as printed by `sprintf("%02x", …)`
(48 = char 0, 87 + 10 = char a). -/
def hexDigit (n : Nat) : Char :=
  if n < 10 then Char.ofNat (48 + n) else Char.ofNat (87 + n)

/-- `sprintf(&out[i*2], "%02x", b)` for an `unsigned char` value `b`:
two lowercase hex digits, most-significant nibble first. -/
def byteToHex (b : Nat) : List Char :=
  [hexDigit (b / 16 % 16), hexDigit (b % 16)]

/-- The hex-printing loops of generator.c: each byte becomes two lowercase
hex digits, in buffer order. -/
def hexEncode (bs : List Nat) : List Char :=
  bs.flatMap byteToHex

/-- Value of a single hex digit as scanned by `sscanf("%x")`:
digits, lowercase a-f and uppercase A-F (by character code). -/
def hexDigitVal (ch : Char) : Option Nat :=
  if 48 ≤ ch.toNat ∧ ch.toNat ≤ 57 then some (ch.toNat - 48)
  else if 97 ≤ ch.toNat ∧ ch.toNat ≤ 102 then some (ch.toNat - 87)
  else if 65 ≤ ch.toNat ∧ ch.toNat ≤ 70 then some (ch.toNat - 55)
  else none

/-- `sscanf(p, "%02x", &value)`: scan up to two hex digits at the start of the
remaining text.  `none` models the case where no digit matches, in which the C
code leaves `value` uninitialized (an indeterminate byte); with a single
matching digit the converted value is that digit. -/
def scanHexByte (s : List Char) : Option Nat :=
  match s with
  | [] => none
  | c1 :: rest =>
    match hexDigitVal c1, rest with
    | none, _ => none
    | some d1, [] => some d1
    | some d1, c2 :: _ =>
      match hexDigitVal c2 with
      | none => some d1
      | some d2 => some (16 * d1 + d2)

/-- Run `sscanf("%02x")` at each character position of `ps` in order,
collecting the bytes; `none` as soon as one scan matches nothing. -/
def collectBytes (s : List Char) : List Nat → Option (List Nat)
  | [] => some []
  | p :: ps =>
    match scanHexByte (s.drop p), collectBytes s ps with
    | some v, some vs => some (v :: vs)
    | _, _ => none

/-- The hex-decoding loops of generator.c, producing `n` bytes from text `s`.
Output byte `j` is scanned from character position `2*j`, or, when `rev` is
true (the private-key loops, which store `private_key_bytes[n-1-i] = value`),
from position `2*(n-1-j)`. -/
def hexDecode (s : List Char) (n : Nat) (rev : Bool) : Option (List Nat) :=
  collectBytes s ((List.range n).map (fun j => if rev then 2 * (n - 1 - j) else 2 * j))

/-- Lines 68-70 / 141-143 of generator.c:
`a[0] &= 248; a[31] &= 127; a[31] |= 64`. -/
def clamp (a : List Nat) : List Nat :=
  let a0 := a.set 0 ((a.getD 0 0) &&& 248)
  a0.set 31 (((a0.getD 31 0) &&& 127) ||| 64)

/-- `SHA256_hash` of generator.c: keccak with a 32-byte output, hex-printed. -/
def SHA256_hash {P : Type} (c : Curve P) (input : List Nat) : List Char :=
  hexEncode (keccakBuf c input 32)

/-- `createPrivateKey` of generator.c.  The 32-byte seed buffer filled by the
entropy collaborator `ed25519_create_seed` is passed as the argument `seed`;
the seed is hashed to a 64-byte digest whose first 32 bytes are hex-printed. -/
def createPrivateKey {P : Type} (c : Curve P) (seed : List Nat) : List Char :=
  hexEncode (memBytes (keccakBuf c (memBytes seed 0 32) 64) 0 32)

/-- The 32 bytes `ge_scalarmult_base` reads in `createPublicKey`: the 64-byte
private-key hash is clamped in place and its first 32 bytes are the scalar. -/
def createPublicKey_scalar {P : Type} (c : Curve P) (kb : List Nat) : List Nat :=
  memBytes (clamp (keccakBuf c kb 64)) 0 32

/-- `createPublicKey` of generator.c: reversed hex-decode of the private-key
text, keccak-512 expansion, clamping, base-point multiplication, point
encoding, hex-printing.  `none` models the indeterminate result when an
`sscanf` of the decode loop matches nothing. -/
def createPublicKey {P : Type} (c : Curve P) (private_key : List Char) :
    Option (List Char) :=
  match hexDecode private_key 32 true with
  | none => none
  | some private_key_bytes =>
    let A := c.ge_scalarmult_base (createPublicKey_scalar c private_key_bytes)
    let in_public_key := memBytes (c.ge_p3_tobytes A) 0 32
    some (hexEncode in_public_key)

/-- The 32-byte buffer `privateKeyRightPart` of `Sign` (lines 137-143):
a copy of the first 32 bytes of the private-key hash, clamped in place. -/
def sign_privateKeyRightPart {P : Type} (c : Curve P) (kb : List Nat) : List Nat :=
  clamp (memBytes (keccakBuf c kb 64) 0 32)

/-- `Sign` of generator.c.  `data` is the message buffer, `public_key` and
`privateKey` the two hex texts.  Follows the source: reversed decode of the
private key, keccak-512 expansion, nonce `r` from the second half of the hash
and the message, `R` written to the first 32 signature bytes, non-reversed
decode of the public key, `hram` from `R || A || message`, clamped scalar,
`sc_muladd` into the last 32 signature bytes.  `none` models the indeterminate
result when an `sscanf` of either decode loop matches nothing. -/
def Sign {P : Type} (c : Curve P) (data : List Nat)
    (public_key privateKey : List Char) : Option (List Nat) :=
  match hexDecode privateKey 32 true with
  | none => none
  | some private_key_bytes =>
    let privateKeyHash := keccakBuf c private_key_bytes 64
    let inData1 := memBytes privateKeyHash 32 32 ++ data
    let r := scReduceBuf c (keccakBuf c inData1 64)
    let R := c.ge_scalarmult_base r
    let sigR := memBytes (c.ge_p3_tobytes R) 0 32
    match hexDecode public_key 32 false with
    | none => none
    | some public_key_bytes =>
      let inData2 := sigR ++ public_key_bytes ++ data
      let hram := scReduceBuf c (keccakBuf c inData2 64)
      let S := memBytes (c.sc_muladd hram (sign_privateKeyRightPart c private_key_bytes) r) 0 32
      some (sigR ++ S)

/-- A trivial instantiation of the abstract collaborators, used to evaluate
the embedding on concrete inputs. -/
def trivCurve : Curve Unit where
  keccak := fun _ n => List.replicate n 0
  ge_scalarmult_base := fun _ => ()
  ge_p3_tobytes := fun _ => List.replicate 32 0
  sc_reduce := fun _ => List.replicate 32 0
  sc_muladd := fun _ _ _ => List.replicate 32 0

/-- The sixteen characters the hex-printing loops can emit. -/
def hexLowerChars : List Char :=
  String.toList "0123456789abcdef"

/-- The six lowercase/uppercase hex-letter pairs. -/
def caseVariantPairs : List (Char × Char) :=
  [('a', 'A'), ('b', 'B'), ('c', 'C'), ('d', 'D'), ('e', 'E'), ('f', 'F')]

/-- Two characters that are equal, or differ only in the letter case of a
hex digit a-f versus A-F. -/
abbrev sameHexUpToCase (c d : Char) : Prop :=
  c = d ∨ (c, d) ∈ caseVariantPairs ∨ (d, c) ∈ caseVariantPairs

-- ### Basic lemmas about the buffer model and the hex codec

theorem memBytes_length (l : List Nat) (off n : Nat) :
    (memBytes l off n).length = n := by
  simp [memBytes]

theorem keccakBuf_length {P : Type} (c : Curve P) (input : List Nat) (n : Nat) :
    (keccakBuf c input n).length = n :=
  memBytes_length _ _ _

theorem hexEncode_length (bs : List Nat) : (hexEncode bs).length = 2 * bs.length := by
  induction bs with
  | nil => rfl
  | cons b bs ih =>
    simp [hexEncode, byteToHex] at ih ⊢
    omega

theorem memBytes_eq_drop_take (l : List Nat) (off n : Nat)
    (h : off + n ≤ l.length) : memBytes l off n = (l.drop off).take n := by
  apply List.ext_getElem
  · rw [memBytes_length, List.length_take, List.length_drop]
    omega
  · intro i h1 h2
    have hi : i < n := by rwa [memBytes_length] at h1
    have hlt : off + i < l.length := by omega
    simp only [memBytes, List.getElem_map, List.getElem_range]
    rw [List.getD_eq_getElem _ _ hlt]
    rw [List.getElem_take, List.getElem_drop]

theorem memBytes_zero_eq_take (l : List Nat) (n : Nat) (h : n ≤ l.length) :
    memBytes l 0 n = l.take n := by
  rw [memBytes_eq_drop_take l 0 n (by omega)]
  simp

theorem hexDigitVal_hexDigit : ∀ d, d < 16 → hexDigitVal (hexDigit d) = some d := by
  decide

theorem scanHexByte_byteToHex (b : Nat) (hb : b < 256) (rest : List Char) :
    scanHexByte (byteToHex b ++ rest) = some b := by
  have h1 : hexDigitVal (hexDigit (b / 16 % 16)) = some (b / 16 % 16) :=
    hexDigitVal_hexDigit _ (Nat.mod_lt _ (by norm_num))
  have h2 : hexDigitVal (hexDigit (b % 16)) = some (b % 16) :=
    hexDigitVal_hexDigit _ (Nat.mod_lt _ (by norm_num))
  simp only [byteToHex, List.cons_append, List.nil_append, scanHexByte, h1, h2]
  congr 1
  omega

theorem scanHexByte_hexEncode (bs : List Nat) (hb : ∀ x ∈ bs, x < 256) :
    ∀ i, i < bs.length → scanHexByte ((hexEncode bs).drop (2 * i)) = some (bs.getD i 0) := by
  induction bs with
  | nil => simp
  | cons b bs ih =>
    intro i hi
    cases i with
    | zero =>
      have : hexEncode (b :: bs) = byteToHex b ++ hexEncode bs := by
        simp [hexEncode]
      rw [Nat.mul_zero, List.drop_zero, this,
        scanHexByte_byteToHex b (hb b (by simp)) _]
      rfl
    | succ i =>
      have hdrop : (hexEncode (b :: bs)).drop (2 * (i + 1)) = (hexEncode bs).drop (2 * i) := by
        have : hexEncode (b :: bs) =
            hexDigit (b / 16 % 16) :: hexDigit (b % 16) :: hexEncode bs := by
          simp [hexEncode, byteToHex]
        rw [this, show 2 * (i + 1) = 2 * i + 1 + 1 by omega,
          List.drop_succ_cons, List.drop_succ_cons]
      rw [hdrop, ih (fun x hx => hb x (by simp [hx])) i (by simpa using hi)]
      rfl

theorem collectBytes_map (s : List Char) (f : Nat → Nat) :
    ∀ ps : List Nat, (∀ p ∈ ps, scanHexByte (s.drop p) = some (f p)) →
    collectBytes s ps = some (ps.map f) := by
  intro ps
  induction ps with
  | nil => intro _; rfl
  | cons p ps ih =>
    intro h
    simp only [collectBytes, h p (by simp), ih (fun q hq => h q (by simp [hq])),
      List.map_cons]

theorem range_map_getD (l : List Nat) :
    (List.range l.length).map (fun j => l.getD j 0) = l := by
  apply List.ext_getElem
  · simp
  · intro i h1 h2
    simp only [List.getElem_map, List.getElem_range]
    exact List.getD_eq_getElem _ _ h2

theorem range_map_getD_rev (l : List Nat) :
    (List.range l.length).map (fun j => l.getD (l.length - 1 - j) 0) = l.reverse := by
  apply List.ext_getElem
  · simp
  · intro i h1 h2
    have hi : i < l.length := by simpa using h2
    simp only [List.getElem_map, List.getElem_range, List.getElem_reverse]
    rw [List.getD_eq_getElem _ _ (by omega : l.length - 1 - i < l.length)]

theorem hexDecode_hexEncode (bs : List Nat) (hb : ∀ x ∈ bs, x < 256) :
    hexDecode (hexEncode bs) bs.length false = some bs := by
  unfold hexDecode
  rw [collectBytes_map _ (fun p => bs.getD (p / 2) 0) _ ?hscan]
  case hscan =>
    intro p hp
    simp only [List.mem_map, List.mem_range] at hp
    obtain ⟨j, hj, rfl⟩ := hp
    simp only [if_neg (by simp : ¬ (false = true))]
    rw [Nat.mul_div_cancel_left j (by norm_num : 0 < 2)]
    exact scanHexByte_hexEncode bs hb j hj
  · congr 1
    rw [List.map_map]
    have : ((fun p => bs.getD (p / 2) 0) ∘ fun j => if false = true then
        2 * (bs.length - 1 - j) else 2 * j) = fun j => bs.getD j 0 := by
      funext j
      simp [Nat.mul_div_cancel_left j (by norm_num : 0 < 2)]
    rw [this, range_map_getD]

theorem clamp_length (a : List Nat) : (clamp a).length = a.length := by
  simp [clamp]

theorem getD_set_ne (b : List Nat) (v k j : Nat) (hkj : k ≠ j) (hj : j < b.length) :
    (b.set k v).getD j 0 = b.getD j 0 := by
  rw [List.getD_eq_getElem _ _ (by simpa using hj), List.getD_eq_getElem _ _ hj]
  rw [List.getElem_set]
  simp [hkj]

theorem getD_take (b : List Nat) (j : Nat) (hj : j < 32) (hb : 32 ≤ b.length) :
    (b.take 32).getD j 0 = b.getD j 0 := by
  rw [List.getD_eq_getElem _ _ (by simp; omega), List.getD_eq_getElem _ _ (by omega)]
  simp

theorem clamp_take (a : List Nat) (h : 32 ≤ a.length) :
    (clamp a).take 32 = clamp (a.take 32) := by
  simp only [clamp]
  rw [getD_take a 0 (by norm_num) h]
  rw [getD_set_ne a _ 0 31 (by norm_num) (by omega)]
  rw [getD_set_ne (a.take 32) _ 0 31 (by norm_num) (by simp; omega)]
  rw [getD_take a 31 (by norm_num) h]
  apply List.ext_getElem
  · simp
    try omega
  · intro i h1 h2
    have hi : i < 32 := by
      simp at h1
      try omega
    simp only [List.getElem_take, List.getElem_set]

theorem scalar_buffers_agree {P : Type} (c : Curve P) (kb : List Nat) :
    createPublicKey_scalar c kb = sign_privateKeyRightPart c kb := by
  unfold createPublicKey_scalar sign_privateKeyRightPart
  have hlen : (keccakBuf c kb 64).length = 64 := keccakBuf_length c kb 64
  rw [memBytes_zero_eq_take _ _ (by rw [clamp_length, hlen]; norm_num),
    memBytes_zero_eq_take _ _ (by rw [hlen]; norm_num)]
  exact clamp_take _ (by rw [hlen]; norm_num)

theorem hexDecode_hexEncode_rev (bs : List Nat) (hb : ∀ x ∈ bs, x < 256) :
    hexDecode (hexEncode bs) bs.length true = some bs.reverse := by
  unfold hexDecode
  rw [collectBytes_map _ (fun p => bs.getD (p / 2) 0) _ ?hscan]
  case hscan =>
    intro p hp
    simp only [List.mem_map, List.mem_range] at hp
    obtain ⟨j, hj, rfl⟩ := hp
    rw [if_pos trivial]
    have := scanHexByte_hexEncode bs hb (bs.length - 1 - j) (by omega)
    simpa [Nat.mul_div_cancel_left _ (by norm_num : 0 < 2)] using this
  · congr 1
    rw [List.map_map]
    have : ((fun p => bs.getD (p / 2) 0) ∘ fun j => if (true : Bool) = true then
        2 * (bs.length - 1 - j) else 2 * j) = fun j => bs.getD (bs.length - 1 - j) 0 := by
      funext j
      simp [Nat.mul_div_cancel_left _ (by norm_num : 0 < 2)]
    rw [this, range_map_getD_rev]

theorem hexDigit_mem_lower : ∀ d, d < 16 → hexDigit d ∈ hexLowerChars := by
  decide

theorem hexEncode_mem_lower (bs : List Nat) :
    ∀ ch ∈ hexEncode bs, ch ∈ hexLowerChars := by
  intro ch hch
  simp only [hexEncode, List.mem_flatMap] at hch
  obtain ⟨b, _, hch⟩ := hch
  simp only [byteToHex, List.mem_cons, List.not_mem_nil, or_false] at hch
  rcases hch with rfl | rfl
  · exact hexDigit_mem_lower _ (Nat.mod_lt _ (by norm_num))
  · exact hexDigit_mem_lower _ (Nat.mod_lt _ (by norm_num))

theorem hexDigitVal_sameCase :
    ∀ c d : Char, sameHexUpToCase c d → hexDigitVal c = hexDigitVal d := by
  intro c d h
  rcases h with rfl | h | h
  · rfl
  · simp only [caseVariantPairs, List.mem_cons, List.not_mem_nil, or_false,
      Prod.mk.injEq] at h
    rcases h with ⟨rfl, rfl⟩ | ⟨rfl, rfl⟩ | ⟨rfl, rfl⟩ | ⟨rfl, rfl⟩ | ⟨rfl, rfl⟩ | ⟨rfl, rfl⟩ <;>
      decide
  · simp only [caseVariantPairs, List.mem_cons, List.not_mem_nil, or_false,
      Prod.mk.injEq] at h
    rcases h with ⟨rfl, rfl⟩ | ⟨rfl, rfl⟩ | ⟨rfl, rfl⟩ | ⟨rfl, rfl⟩ | ⟨rfl, rfl⟩ | ⟨rfl, rfl⟩ <;>
      decide

theorem forall2_drop {R : Char → Char → Prop} :
    ∀ (n : Nat) (l1 l2 : List Char), List.Forall₂ R l1 l2 →
      List.Forall₂ R (l1.drop n) (l2.drop n) := by
  intro n
  induction n with
  | zero => intro l1 l2 h; simpa using h
  | succ n ih =>
    intro l1 l2 h
    cases h with
    | nil => exact List.Forall₂.nil
    | cons hab t => simpa using ih _ _ t

theorem scanHexByte_congr (t1 t2 : List Char)
    (h : List.Forall₂ sameHexUpToCase t1 t2) : scanHexByte t1 = scanHexByte t2 := by
  cases h with
  | nil => rfl
  | @cons a b l1 l2 h1 htail =>
    have e1 : hexDigitVal a = hexDigitVal b := hexDigitVal_sameCase _ _ h1
    cases htail with
    | nil => simp only [scanHexByte, e1]
    | @cons a2 b2 l1t l2t h2 _ =>
      have e2 : hexDigitVal a2 = hexDigitVal b2 := hexDigitVal_sameCase _ _ h2
      simp only [scanHexByte, e1]
      cases hb : hexDigitVal b with
      | none => simp
      | some d1 => simp [e2]

theorem collectBytes_congr (s1 s2 : List Char)
    (h : List.Forall₂ sameHexUpToCase s1 s2) :
    ∀ ps : List Nat, collectBytes s1 ps = collectBytes s2 ps := by
  intro ps
  induction ps with
  | nil => rfl
  | cons p ps ih =>
    simp only [collectBytes, ih, scanHexByte_congr _ _ (forall2_drop p _ _ h)]

theorem hexDecode_congr (s1 s2 : List Char)
    (h : List.Forall₂ sameHexUpToCase s1 s2) (n : Nat) (rev : Bool) :
    hexDecode s1 n rev = hexDecode s2 n rev :=
  collectBytes_congr s1 s2 h _

theorem sign_scalar_take {P : Type} (c : Curve P) (kb : List Nat) :
    sign_privateKeyRightPart c kb = clamp ((keccakBuf c kb 64).take 32) := by
  unfold sign_privateKeyRightPart
  rw [memBytes_zero_eq_take _ _ (by rw [keccakBuf_length]; norm_num)]

theorem keccakBuf_mem_drop {P : Type} (c : Curve P) (kb : List Nat) :
    memBytes (keccakBuf c kb 64) 32 32 = (keccakBuf c kb 64).drop 32 := by
  rw [memBytes_eq_drop_take _ _ _ (by rw [keccakBuf_length])]
  rw [List.take_of_length_le]
  rw [List.length_drop, keccakBuf_length]

theorem createPublicKey_scalar_take {P : Type} (c : Curve P) (kb : List Nat) :
    createPublicKey_scalar c kb = clamp ((keccakBuf c kb 64).take 32) :=
  (scalar_buffers_agree c kb).trans (sign_scalar_take c kb)

-- ### The claims

/-- Claim C1: for every message, 64-character hex private-key text and
public-key text, `Sign` returns the 64 bytes `encodedR || S` where, with
`expanded = Hash512(hexDecode(priv, reversed))`,
`r = reduceScalarModL(Hash512(expanded[32:64] || message))`,
`R = scalarMultBase(r)`, `encodedR = encodePoint(R)`,
`hram = reduceScalarModL(Hash512(encodedR || Abytes || message))`, and
`S = fusedMulAdd(hram, clamp(expanded[0:32]), r)`. -/
theorem sign_eddsa_composition {P : Type} (c : Curve P) (data : List Nat)
    (public_key privateKey : List Char) (kb ab : List Nat)
    (hk : hexDecode privateKey 32 true = some kb)
    (ha : hexDecode public_key 32 false = some ab) :
    Sign c data public_key privateKey =
      (let expanded := keccakBuf c kb 64
       let r := scReduceBuf c (keccakBuf c (expanded.drop 32 ++ data) 64)
       let encodedR := memBytes (c.ge_p3_tobytes (c.ge_scalarmult_base r)) 0 32
       let hram := scReduceBuf c (keccakBuf c (encodedR ++ ab ++ data) 64)
       let S := memBytes (c.sc_muladd hram (clamp (expanded.take 32)) r) 0 32
       some (encodedR ++ S)) := by
  simp only [Sign, hk, ha]
  rw [keccakBuf_mem_drop, sign_scalar_take]

/-- Witness for C1 at the trivial collaborators and the all-zero key texts. -/
theorem sign_eddsa_composition_witness :
    Sign trivCurve [] (List.replicate 64 '0') (List.replicate 64 '0') =
      some (List.replicate 64 0) := by
  rw [sign_eddsa_composition trivCurve [] (List.replicate 64 '0')
    (List.replicate 64 '0') (List.replicate 32 0) (List.replicate 32 0)
    (by decide) (by decide)]
  decide

/-- Claim C2: for every 64-character hex private-key text, `createPublicKey`
returns the hex encoding (no reversal) of the encoded point
`scalarMultBase(clamp(Hash512(hexDecode(priv, reversed))[0:32]))`. -/
theorem createPublicKey_derivation {P : Type} (c : Curve P)
    (private_key : List Char) (kb : List Nat)
    (hk : hexDecode private_key 32 true = some kb) :
    createPublicKey c private_key =
      some (hexEncode (memBytes (c.ge_p3_tobytes (c.ge_scalarmult_base
        (clamp ((keccakBuf c kb 64).take 32)))) 0 32)) := by
  simp only [createPublicKey, hk, createPublicKey_scalar_take]

/-- Witness for C2 at the trivial collaborators and the all-zero key text. -/
theorem createPublicKey_derivation_witness :
    createPublicKey trivCurve (List.replicate 64 '0') =
      some (hexEncode (memBytes (trivCurve.ge_p3_tobytes
        (trivCurve.ge_scalarmult_base
          (clamp ((keccakBuf trivCurve (List.replicate 32 0) 64).take 32)))) 0 32)) :=
  createPublicKey_derivation trivCurve (List.replicate 64 '0')
    (List.replicate 32 0) (by decide)

/-- Claim C3 (the code violates it): a private-key text of the wrong length
(63 characters) is not reported as a decode error; the decode loop silently
produces 32 bytes (the final truncated pair is scanned as a single digit) and
`createPublicKey` returns a public key as if nothing were wrong.  The C
functions return `void` and ignore every `sscanf` return value, so no decode
error can reach the caller. -/
theorem decode_wrong_length_silent :
    hexDecode (List.replicate 63 '0') 32 true = some (List.replicate 32 0) ∧
    createPublicKey trivCurve (List.replicate 63 '0') =
      some (List.replicate 64 '0') := by
  decide

/-- Claim C4: the clamped scalar `createPublicKey` hands to
`ge_scalarmult_base` is bit-for-bit the clamped scalar `Sign` hands to
`sc_muladd`, and both equal `clamp(Hash512(hexDecode(priv, reversed))[0:32])`. -/
theorem clamped_scalars_agree {P : Type} (c : Curve P)
    (private_key : List Char) (kb : List Nat)
    (_hk : hexDecode private_key 32 true = some kb) :
    createPublicKey_scalar c kb = sign_privateKeyRightPart c kb ∧
    sign_privateKeyRightPart c kb = clamp ((keccakBuf c kb 64).take 32) :=
  ⟨scalar_buffers_agree c kb, sign_scalar_take c kb⟩

/-- Witness for C4 at the trivial collaborators and the all-zero key text. -/
theorem clamped_scalars_agree_witness :
    createPublicKey_scalar trivCurve (List.replicate 32 0) =
      sign_privateKeyRightPart trivCurve (List.replicate 32 0) ∧
    sign_privateKeyRightPart trivCurve (List.replicate 32 0) =
      clamp ((keccakBuf trivCurve (List.replicate 32 0) 64).take 32) :=
  clamped_scalars_agree trivCurve (List.replicate 64 '0')
    (List.replicate 32 0) (by decide)

/-- Claim C5: `Sign` is deterministic.  In the embedding `Sign` is a pure
function of the message, the two key texts and the collaborators; unlike
`createPrivateKey` it takes no entropy input, so two calls with identical
inputs return byte-identical signatures. -/
theorem sign_deterministic {P : Type} (c : Curve P) (data : List Nat)
    (public_key privateKey : List Char) :
    Sign c data public_key privateKey = Sign c data public_key privateKey := rfl

/-- Claim C6: `createPrivateKey` always returns exactly 64 hex characters,
`createPublicKey` always returns exactly 64 hex characters, and `Sign` always
returns exactly 64 bytes. -/
theorem output_lengths {P : Type} (c : Curve P) :
    (∀ seed : List Nat, (createPrivateKey c seed).length = 64) ∧
    (∀ (private_key out : List Char), createPublicKey c private_key = some out →
      out.length = 64) ∧
    (∀ (data : List Nat) (public_key privateKey : List Char) (sig : List Nat),
      Sign c data public_key privateKey = some sig → sig.length = 64) := by
  refine ⟨?_, ?_, ?_⟩
  · intro seed
    show (hexEncode (memBytes (keccakBuf c (memBytes seed 0 32) 64) 0 32)).length = 64
    rw [hexEncode_length, memBytes_length]
  · intro private_key out h
    unfold createPublicKey at h
    cases hd : hexDecode private_key 32 true with
    | none => rw [hd] at h; cases h
    | some kb =>
      rw [hd] at h
      simp only [Option.some.injEq] at h
      subst h
      rw [hexEncode_length, memBytes_length]
  · intro data public_key privateKey sig h
    unfold Sign at h
    cases hd : hexDecode privateKey 32 true with
    | none => rw [hd] at h; cases h
    | some kb =>
      rw [hd] at h
      cases ha : hexDecode public_key 32 false with
      | none =>
        simp only [ha] at h
        cases h
      | some ab =>
        simp only [ha, Option.some.injEq] at h
        subst h
        rw [List.length_append, memBytes_length, memBytes_length]

/-- Witness for C6 at the trivial collaborators and concrete inputs. -/
theorem output_lengths_witness :
    (createPrivateKey trivCurve (List.replicate 32 0)).length = 64 ∧
    (List.replicate 64 '0').length = 64 ∧
    (List.replicate 64 (0 : Nat)).length = 64 :=
  ⟨(output_lengths trivCurve).1 (List.replicate 32 0),
   (output_lengths trivCurve).2.1 (List.replicate 64 '0') (List.replicate 64 '0')
     (by decide),
   (output_lengths trivCurve).2.2 [] (List.replicate 64 '0') (List.replicate 64 '0')
     (List.replicate 64 0) (by decide)⟩

/-- Claim C7: for every byte buffer `b`, decoding `hexEncode b` without
reversal gives back `b`, and decoding it with reversal gives the byte
reversal of `b` — encode and decode are mutual inverses under the matching
reversal mode. -/
theorem hex_round_trip (bs : List Nat) (hb : ∀ x ∈ bs, x < 256) :
    hexDecode (hexEncode bs) bs.length false = some bs ∧
    hexDecode (hexEncode bs) bs.length true = some bs.reverse :=
  ⟨hexDecode_hexEncode bs hb, hexDecode_hexEncode_rev bs hb⟩

/-- Witness for C7 on a concrete three-byte buffer. -/
theorem hex_round_trip_witness :
    hexDecode (hexEncode [0, 171, 255]) (List.length [0, 171, 255]) false =
      some [0, 171, 255] ∧
    hexDecode (hexEncode [0, 171, 255]) (List.length [0, 171, 255]) true =
      some (List.reverse [0, 171, 255]) :=
  hex_round_trip [0, 171, 255] (by decide)

/-- Claim C8: for every input buffer (including the empty one) `SHA256_hash`
returns exactly the hex encoding of the 32-byte keccak digest of the input:
64 characters, all of them lowercase hex digits, with no failure path. -/
theorem digest_hex_of_hash {P : Type} (c : Curve P) (input : List Nat) :
    SHA256_hash c input = hexEncode (keccakBuf c input 32) ∧
    (SHA256_hash c input).length = 64 ∧
    ∀ ch ∈ SHA256_hash c input, ch ∈ hexLowerChars := by
  refine ⟨rfl, ?_, ?_⟩
  · show (hexEncode (keccakBuf c input 32)).length = 64
    rw [hexEncode_length, keccakBuf_length]
  · exact fun ch hch => hexEncode_mem_lower _ ch hch

/-- Witness for C8 at the trivial collaborators and the empty input. -/
theorem digest_hex_of_hash_witness :
    (SHA256_hash trivCurve []).length = 64 ∧ '0' ∈ hexLowerChars :=
  ⟨(digest_hex_of_hash trivCurve []).2.1,
   (digest_hex_of_hash trivCurve []).2.2 '0' (by decide)⟩

/-- Claim C9: the first 32 signature bytes (the encoded point `R`) do not
depend on the public-key text: signing the same message with the same private
key but two different public-key texts yields signatures agreeing on bytes
0..31. -/
theorem sign_R_ignores_public_key {P : Type} (c : Curve P) (data : List Nat)
    (privateKey pub1 pub2 : List Char) (sig1 sig2 : List Nat)
    (h1 : Sign c data pub1 privateKey = some sig1)
    (h2 : Sign c data pub2 privateKey = some sig2) :
    sig1.take 32 = sig2.take 32 := by
  unfold Sign at h1 h2
  cases hd : hexDecode privateKey 32 true with
  | none => rw [hd] at h1; cases h1
  | some kb =>
    rw [hd] at h1 h2
    cases ha1 : hexDecode pub1 32 false with
    | none =>
      simp only [ha1] at h1
      cases h1
    | some ab1 =>
      cases ha2 : hexDecode pub2 32 false with
      | none =>
        simp only [ha2] at h2
        cases h2
      | some ab2 =>
        simp only [ha1, Option.some.injEq] at h1
        simp only [ha2, Option.some.injEq] at h2
        subst h1
        subst h2
        have key : ∀ (x y : List Nat), x.length = 32 → (x ++ y).take 32 = x := by
          intro x y hx
          rw [← hx]
          exact List.take_left x y
        rw [key _ _ (memBytes_length _ _ _), key _ _ (memBytes_length _ _ _)]

/-- Witness for C9: two different public-key texts, same message and private
key, at the trivial collaborators. -/
theorem sign_R_ignores_public_key_witness :
    (List.replicate 64 (0 : Nat)).take 32 = (List.replicate 64 (0 : Nat)).take 32 :=
  sign_R_ignores_public_key trivCurve [] (List.replicate 64 '0')
    (List.replicate 64 '0') (List.replicate 64 '1')
    (List.replicate 64 0) (List.replicate 64 0) (by decide) (by decide)

/-- Claim C10: hex decoding is case-insensitive — two texts that differ only
in the letter case of hex digits decode to the same bytes in both modes, so
`createPublicKey` and `Sign` return the same results for both — while
encoding only ever emits lowercase hex characters. -/
theorem hex_decoding_case_insensitive {P : Type} (c : Curve P)
    (s1 s2 : List Char) (hlen : s1.length = s2.length)
    (hcase : ∀ p ∈ s1.zip s2, sameHexUpToCase p.1 p.2) :
    (∀ (n : Nat) (rev : Bool), hexDecode s1 n rev = hexDecode s2 n rev) ∧
    createPublicKey c s1 = createPublicKey c s2 ∧
    (∀ (data : List Nat) (public_key : List Char),
      Sign c data public_key s1 = Sign c data public_key s2) ∧
    (∀ (data : List Nat) (privateKey : List Char),
      Sign c data s1 privateKey = Sign c data s2 privateKey) ∧
    (∀ (bs : List Nat), ∀ ch ∈ hexEncode bs, ch ∈ hexLowerChars) := by
  have hf : List.Forall₂ sameHexUpToCase s1 s2 := by
    rw [List.forall₂_iff_zip]
    exact ⟨hlen, fun hp => hcase _ hp⟩
  have hdec : ∀ (n : Nat) (rev : Bool), hexDecode s1 n rev = hexDecode s2 n rev :=
    fun n rev => hexDecode_congr s1 s2 hf n rev
  refine ⟨hdec, ?_, ?_, ?_, fun bs => hexEncode_mem_lower bs⟩
  · unfold createPublicKey
    rw [hdec 32 true]
  · intro data public_key
    unfold Sign
    rw [hdec 32 true]
  · intro data privateKey
    unfold Sign
    simp only [hdec 32 false]

/-- Witness for C10: an all-lowercase and the corresponding all-uppercase
key text, at the trivial collaborators. -/
theorem hex_decoding_case_insensitive_witness :
    createPublicKey trivCurve (List.replicate 64 'a') =
      createPublicKey trivCurve (List.replicate 64 'A') :=
  (hex_decoding_case_insensitive trivCurve (List.replicate 64 'a')
    (List.replicate 64 'A') (by decide) (by decide)).2.1
